import Mathlib

/-!
Verification of the facet module of the `gigtags` library (`src/facet.rs`).

Strings are modelled as lists of Unicode scalar values (`List Nat`).
Rust operates on the UTF-8 byte representation in two places, which we
model explicitly: `str::len` is the UTF-8 byte count, and slicing
`&s[i..]` requires `i` to be a UTF-8 character boundary (otherwise the
Rust program panics).  Fallible byte slicing is modelled with
`Except Unit`, whose `.error ()` case marks a panic.
-/

namespace GigTags

/-- Unicode White_Space characters: the set recognized by Rust's
`char::is_whitespace` (used by `str::trim`) and by the regex class `\s`
(`\p{White_Space}`), which agree. -/
def wsChars : List Nat :=
  [0x9, 0xA, 0xB, 0xC, 0xD, 0x20, 0x85, 0xA0, 0x1680,
   0x2000, 0x2001, 0x2002, 0x2003, 0x2004, 0x2005, 0x2006, 0x2007,
   0x2008, 0x2009, 0x200A, 0x2028, 0x2029, 0x202F, 0x205F, 0x3000]

/-- Whether a character is whitespace (Unicode White_Space). -/
def isWhitespace (c : Nat) : Bool := wsChars.contains c

/-- Ranges of the Unicode general category Nd (Decimal_Number): the set
matched by the regex class `\d`, which is Unicode-aware by default in the
`regex` crate (also for `regex::bytes::Regex`). -/
def ndRanges : List (Nat × Nat) :=
  [(0x30, 0x39), (0x660, 0x669), (0x6F0, 0x6F9), (0x7C0, 0x7C9),
   (0x966, 0x96F), (0x9E6, 0x9EF), (0xA66, 0xA6F), (0xAE6, 0xAEF),
   (0xB66, 0xB6F), (0xBE6, 0xBEF), (0xC66, 0xC6F), (0xCE6, 0xCEF),
   (0xD66, 0xD6F), (0xDE6, 0xDEF), (0xE50, 0xE59), (0xED0, 0xED9),
   (0xF20, 0xF29), (0x1040, 0x1049), (0x1090, 0x1099), (0x17E0, 0x17E9),
   (0x1810, 0x1819), (0x1946, 0x194F), (0x19D0, 0x19D9), (0x1A80, 0x1A89),
   (0x1A90, 0x1A99), (0x1B50, 0x1B59), (0x1BB0, 0x1BB9), (0x1C40, 0x1C49),
   (0x1C50, 0x1C59), (0xA620, 0xA629), (0xA8D0, 0xA8D9), (0xA900, 0xA909),
   (0xA9D0, 0xA9D9), (0xA9F0, 0xA9F9), (0xAA50, 0xAA59), (0xABF0, 0xABF9),
   (0xFF10, 0xFF19), (0x104A0, 0x104A9), (0x10D30, 0x10D39),
   (0x11066, 0x1106F), (0x110F0, 0x110F9), (0x11136, 0x1113F),
   (0x111D0, 0x111D9), (0x112F0, 0x112F9), (0x11450, 0x11459),
   (0x114D0, 0x114D9), (0x11650, 0x11659), (0x116C0, 0x116C9),
   (0x11730, 0x11739), (0x118E0, 0x118E9), (0x11950, 0x11959),
   (0x11C50, 0x11C59), (0x11D50, 0x11D59), (0x11DA0, 0x11DA9),
   (0x11F50, 0x11F59), (0x16A60, 0x16A69), (0x16AC0, 0x16AC9),
   (0x16B50, 0x16B59), (0x1D7CE, 0x1D7FF), (0x1E140, 0x1E149),
   (0x1E2F0, 0x1E2F9), (0x1E4F0, 0x1E4F9), (0x1E950, 0x1E959),
   (0x1FBF0, 0x1FBF9)]

/-- Whether a character is a Unicode decimal digit (category Nd),
i.e. matched by the regex class `\d` in its default Unicode mode. -/
def isNd (c : Nat) : Bool := ndRanges.any fun r => r.1 ≤ c && c ≤ r.2

/-- Whether a character is an ASCII decimal digit `0`..`9`. -/
def isAsciiDigit (c : Nat) : Bool := 0x30 ≤ c && c ≤ 0x39

/-- Whether a character is ASCII (`str::is_ascii` checks every byte,
equivalently every character, is below `0x80`). -/
def isAsciiChar (c : Nat) : Bool := c < 0x80

/-- UTF-8 encoding of a single Unicode scalar value. -/
def utf8EncodeChar (c : Nat) : List Nat :=
  if c < 0x80 then [c]
  else if c < 0x800 then [0xC0 + c / 64, 0x80 + c % 64]
  else if c < 0x10000 then
    [0xE0 + c / 4096, 0x80 + c / 64 % 64, 0x80 + c % 64]
  else
    [0xF0 + c / 262144, 0x80 + c / 4096 % 64, 0x80 + c / 64 % 64,
     0x80 + c % 64]

/-- UTF-8 encoding of a string (list of scalar values) as a byte list. -/
def utf8Encode (s : List Nat) : List Nat := (s.map utf8EncodeChar).flatten

/-- Rust `str::len`: the length in bytes of the UTF-8 representation. -/
def byteLen (s : List Nat) : Nat := (utf8Encode s).length

/-- Rust `str::trim`: remove leading and trailing whitespace
(`char::is_whitespace` on both ends). -/
def trim (s : List Nat) : List Nat :=
  ((s.dropWhile isWhitespace).reverse.dropWhile isWhitespace).reverse

/-- Translation of `is_valid` (facet.rs line 17): the facet equals its
trimmed form and its first byte is not `b'/'` (0x2F).  The first byte of
the UTF-8 representation is the lead byte of the first character. -/
def is_valid (s : List Nat) : Bool :=
  trim s == s && !((utf8Encode s).head? == some 0x2F)

/-- Translation of `is_empty` (facet.rs line 23). -/
def is_empty (s : List Nat) : Bool := s.isEmpty

/-- One attempt of the regex tail `~\d{8}$` at the current position:
the remaining input is `~` followed by exactly 8 `\d` characters. -/
def matchTilde8 : List Nat → Bool
  | [] => false
  | c :: d => c == 0x7E && d.length == 8 && d.all isNd

/-- Scan for the `[^\s]~\d{8}$` alternative of the date-like-suffix regex
`(^|[^\s])~\d{8}$`: at some position, a non-whitespace character followed
by `~\d{8}` at the end of the input. -/
def dateLikeScan : List Nat → Bool
  | [] => false
  | c :: rest => (!isWhitespace c && matchTilde8 rest) || dateLikeScan rest

/-- Translation of `has_date_like_suffix` (facet.rs line 30): whether the
regex `(^|[^\s])~\d{8}$` matches.  The `^` alternative can only apply at
the start of the haystack; the other alternative may start anywhere. -/
def has_date_like_suffix (s : List Nat) : Bool :=
  matchTilde8 s || dateLikeScan s

/-- One attempt of `[\s]+~\d{8}$` at the current position: one or more
whitespace characters, then `~\d{8}` at the end of the input. -/
def wsThenTilde8 : List Nat → Bool
  | [] => false
  | c :: rest => isWhitespace c && (matchTilde8 rest || wsThenTilde8 rest)

/-- Translation of `has_invalid_date_like_suffix` (facet.rs line 85):
whether the regex `[\s]+~\d{8}$` matches at some position. -/
def has_invalid_date_like_suffix : List Nat → Bool
  | [] => false
  | c :: rest => wsThenTilde8 (c :: rest) || has_invalid_date_like_suffix rest

/-- Split a string at a byte offset `n` of its UTF-8 representation.
Returns `none` when `n` is not a character boundary (in Rust, slicing
there panics) or lies beyond the end. -/
def splitAtByteBoundary : Nat → List Nat → Option (List Nat × List Nat)
  | 0, s => some ([], s)
  | _ + 1, [] => none
  | n + 1, c :: rest =>
    if (utf8EncodeChar c).length ≤ n + 1 then
      match splitAtByteBoundary (n + 1 - (utf8EncodeChar c).length) rest with
      | some (p, q) => some (c :: p, q)
      | none => none
    else none

/-- Translation of `try_split_into_prefix_and_date_like_suffix`
(facet.rs lines 37-49).  `DATE_LIKE_SUFFIX_LEN = 9`.  The slice
`&facet[prefix_len..]` at a non-character-boundary byte index panics in
Rust, modelled by `.error ()`; a non-ASCII candidate suffix yields
`.ok none`. -/
def try_split_into_prefix_and_date_like_suffix (s : List Nat) :
    Except Unit (Option (List Nat × List Nat)) :=
  if byteLen s < 9 then .ok none
  else
    match splitAtByteBoundary (byteLen s - 9) s with
    | none => .error ()
    | some (p, suf) =>
      if suf.all isAsciiChar then .ok (some (p, suf)) else .ok none

/-- Calendar dates, the year/month/day view of the `time` crate's `Date`. -/
structure Date where
  year : Int
  month : Nat
  day : Nat
deriving DecidableEq, Repr

/-- Proleptic-Gregorian leap year rule used by the `time` crate. -/
def isLeapYear (y : Nat) : Bool :=
  (y % 4 == 0 && y % 100 != 0) || y % 400 == 0

/-- Number of days of a month. -/
def daysInMonth (y m : Nat) : Nat :=
  if m == 2 then (if isLeapYear y then 29 else 28)
  else if m == 4 || m == 6 || m == 9 || m == 11 then 30
  else 31

/-- Whether year/month/day form a real calendar date. -/
def isValidCalendarDate (y m d : Nat) : Bool :=
  1 ≤ m && m ≤ 12 && 1 ≤ d && d ≤ daysInMonth y m

/-- Numeric value of an ASCII digit character. -/
def digitVal (c : Nat) : Nat := c - 0x30

/-- Modelled from the spec: the repository calls the external `time`
crate's `Date::parse` with the fixed format `~[year][month][day]`
(facet.rs line 60); the crate itself is not part of `src/`.  On the
9-character candidate suffixes this parser receives, it accepts exactly
`~` + 8 ASCII digits (4-digit year, 2-digit month, 2-digit day) that
form a real calendar date. -/
def parseDateSuffix (s : List Nat) : Option Date :=
  match s with
  | [t, y1, y2, y3, y4, m1, m2, d1, d2] =>
    if t == 0x7E && [y1, y2, y3, y4, m1, m2, d1, d2].all isAsciiDigit then
      let y := digitVal y1 * 1000 + digitVal y2 * 100 + digitVal y3 * 10 +
        digitVal y4
      let m := digitVal m1 * 10 + digitVal m2
      let d := digitVal d1 * 10 + digitVal d2
      if isValidCalendarDate y m d then some ⟨(y : Int), m, d⟩ else none
    else none
  | _ => none

/-- Translation of `try_split_into_prefix_and_date_suffix`
(facet.rs lines 53-58): perform the structural split, then parse the
suffix, keeping the split even when the parse fails. -/
def try_split_into_prefix_and_date_suffix (s : List Nat) :
    Except Unit (Option (List Nat × Option Date)) :=
  match try_split_into_prefix_and_date_like_suffix s with
  | .error e => .error e
  | .ok none => .ok none
  | .ok (some (p, suf)) => .ok (some (p, parseDateSuffix suf))

/-- Zero-padded 2-digit decimal rendering. -/
def pad2 (n : Nat) : List Nat := [0x30 + n / 10 % 10, 0x30 + n % 10]

/-- Zero-padded 4-digit decimal rendering. -/
def pad4 (n : Nat) : List Nat :=
  [0x30 + n / 1000 % 10, 0x30 + n / 100 % 10, 0x30 + n / 10 % 10,
   0x30 + n % 10]

/-- Modelled from the spec: `Date::format` of the external `time` crate
with `DATE_SUFFIX_FORMAT` (facet.rs line 60), which is not part of
`src/`.  Per spec section 4.5 it renders `~YYYYMMDD` for every date whose
year is representable with 4 digits and surfaces a formatting failure for
years outside that range. -/
def formatDateSuffix (d : Date) : Except Unit (List Nat) :=
  if 0 ≤ d.year ∧ d.year ≤ 9999 then
    .ok (0x7E :: (pad4 d.year.toNat ++ (pad2 d.month ++ pad2 d.day)))
  else .error ()

/-- Translation of `from_prefix_with_date_suffix` (facet.rs lines
194-197): format the date suffix and append it directly after the given
prefix string. -/
def from_prefix_with_date_suffix (p : List Nat) (d : Date) :
    Except Unit (List Nat) :=
  match formatDateSuffix d with
  | .error e => .error e
  | .ok suf => .ok (p ++ suf)

/-! ### Definitions used to state the claims -/

/-- A 9-character block `~` followed by exactly 8 characters satisfying
the digit predicate `digitP`. -/
def tildeDigits8 (digitP : Nat → Bool) : List Nat → Bool
  | [] => false
  | c :: d => c == 0x7E && d.length == 8 && d.all digitP

/-- The character immediately before the trailing 9-character block,
when one exists, is not whitespace. -/
def precededOk (s : List Nat) : Bool :=
  match (s.take (s.length - 9)).getLast? with
  | some c => !isWhitespace c
  | none => true

/-- The date-like-suffix shape stated positionally: the last 9
characters are `~` followed by exactly 8 characters satisfying `digitP`,
and the character immediately before that block (if any) is not
whitespace. -/
def dateLikeSuffixShape (digitP : Nat → Bool) (s : List Nat) : Bool :=
  decide (9 ≤ s.length) && tildeDigits8 digitP (s.drop (s.length - 9)) &&
    precededOk s

/-- The date-like-suffix shape exactly as claim C1 words it, with ASCII
decimal digits. -/
def dateLikeSuffixSpecAscii (s : List Nat) : Bool :=
  dateLikeSuffixShape isAsciiDigit s

/-- The date-like-suffix shape with Unicode decimal digits (category
Nd), matching the regex class `\d` of the code. -/
def dateLikeSuffixSpecNd (s : List Nat) : Bool :=
  dateLikeSuffixShape isNd s

/-- The string `~٠٠٠٠٠٠٠٠`: a tilde followed by 8 Arabic-Indic digits
(U+0660), each a Unicode Nd digit but not an ASCII digit. -/
def arabicDigitFacet : List Nat := 0x7E :: List.replicate 8 0x660

/-- The string `€€€a` (three euro signs, U+20AC, then `a`): 10 UTF-8
bytes, and byte index 1 = 10 - 9 is not a character boundary. -/
def multibyteBoundaryFacet : List Nat := [0x20AC, 0x20AC, 0x20AC, 0x61]

/-- The string `abc ~19700230`. -/
def facetSpaceFeb30 : List Nat :=
  [0x61, 0x62, 0x63, 0x20, 0x7E, 0x31, 0x39, 0x37, 0x30, 0x30, 0x32,
   0x33, 0x30]

/-- The string `~00000000`. -/
def facetZeros : List Nat :=
  [0x7E, 0x30, 0x30, 0x30, 0x30, 0x30, 0x30, 0x30, 0x30]

/-- The string `tag~20220625`. -/
def facetTagDate : List Nat :=
  [0x74, 0x61, 0x67, 0x7E, 0x32, 0x30, 0x32, 0x32, 0x30, 0x36, 0x32,
   0x35]

/-- The string `x~20220625`. -/
def facetXDate : List Nat :=
  [0x78, 0x7E, 0x32, 0x30, 0x32, 0x32, 0x30, 0x36, 0x32, 0x35]

/-! ### Basic facts about the UTF-8 model -/

theorem utf8EncodeChar_length_pos (c : Nat) : 0 < (utf8EncodeChar c).length := by
  unfold utf8EncodeChar
  repeat' split
  all_goals simp

theorem utf8EncodeChar_ascii {c : Nat} (h : c < 0x80) : utf8EncodeChar c = [c] := by
  unfold utf8EncodeChar
  rw [if_pos h]

theorem byteLen_nil : byteLen [] = 0 := rfl

theorem byteLen_cons (c : Nat) (s : List Nat) :
    byteLen (c :: s) = (utf8EncodeChar c).length + byteLen s := by
  simp [byteLen, utf8Encode]

theorem byteLen_append (a b : List Nat) :
    byteLen (a ++ b) = byteLen a + byteLen b := by
  simp [byteLen, utf8Encode]

theorem byteLen_ascii : ∀ {l : List Nat}, l.all isAsciiChar = true →
    byteLen l = l.length
  | [], _ => rfl
  | c :: rest, h => by
    rw [List.all_cons, Bool.and_eq_true] at h
    rw [byteLen_cons, utf8EncodeChar_ascii (by simpa [isAsciiChar] using h.1),
      byteLen_ascii h.2]
    simp only [List.length_cons, List.length_nil]
    omega

theorem splitAtByteBoundary_append : ∀ {s : List Nat} {n : Nat}
    {p q : List Nat}, splitAtByteBoundary n s = some (p, q) → p ++ q = s := by
  intro s
  induction s with
  | nil =>
    intro n p q h
    cases n with
    | zero =>
      simp [splitAtByteBoundary] at h
      simp [h.1, h.2]
    | succ n => simp [splitAtByteBoundary] at h
  | cons c rest ih =>
    intro n p q h
    cases n with
    | zero =>
      simp [splitAtByteBoundary] at h
      simp [h.1, h.2]
    | succ n =>
      simp only [splitAtByteBoundary] at h
      split at h
      · cases hrec : splitAtByteBoundary (n + 1 - (utf8EncodeChar c).length)
          rest with
        | none => rw [hrec] at h; simp at h
        | some pq =>
          obtain ⟨p', q'⟩ := pq
          rw [hrec] at h
          simp only [Option.some.injEq, Prod.mk.injEq] at h
          obtain ⟨rfl, rfl⟩ := h
          simp [ih hrec]
      · simp at h

theorem splitAtByteBoundary_byteLen (p q : List Nat) :
    splitAtByteBoundary (byteLen p) (p ++ q) = some (p, q) := by
  induction p with
  | nil => simp [byteLen_nil, splitAtByteBoundary]
  | cons c p' ih =>
    have he : 0 < (utf8EncodeChar c).length := utf8EncodeChar_length_pos c
    have hbl : byteLen (c :: p') = (utf8EncodeChar c).length + byteLen p' :=
      byteLen_cons c p'
    obtain ⟨m, hm⟩ : ∃ m, byteLen (c :: p') = m + 1 :=
      ⟨byteLen (c :: p') - 1, by omega⟩
    rw [hm, List.cons_append]
    simp only [splitAtByteBoundary]
    rw [if_pos (by omega : (utf8EncodeChar c).length ≤ m + 1),
      (by omega : m + 1 - (utf8EncodeChar c).length = byteLen p'), ih]

/-! ### Characterizations of the regex matchers -/

theorem matchTilde8_iff {t : List Nat} : matchTilde8 t = true ↔
    ∃ d, t = 0x7E :: d ∧ d.length = 8 ∧ d.all isNd = true := by
  cases t with
  | nil => simp [matchTilde8]
  | cons c d =>
    simp only [matchTilde8, Bool.and_eq_true, beq_iff_eq, List.cons.injEq]
    constructor
    · rintro ⟨⟨rfl, h2⟩, h3⟩
      exact ⟨d, ⟨rfl, rfl⟩, h2, h3⟩
    · rintro ⟨d', ⟨rfl, rfl⟩, h2, h3⟩
      exact ⟨⟨rfl, h2⟩, h3⟩

theorem matchTilde8_length {t : List Nat} (h : matchTilde8 t = true) :
    t.length = 9 := by
  obtain ⟨d, rfl, hd, -⟩ := matchTilde8_iff.mp h
  simp [hd]

theorem dateLikeScan_iff {s : List Nat} : dateLikeScan s = true ↔
    ∃ a c t, s = a ++ c :: t ∧ isWhitespace c = false ∧
      matchTilde8 t = true := by
  induction s with
  | nil => simp [dateLikeScan]
  | cons x rest ih =>
    simp only [dateLikeScan, Bool.or_eq_true, Bool.and_eq_true,
      Bool.not_eq_true']
    constructor
    · rintro (⟨hx, hmt⟩ | hscan)
      · exact ⟨[], x, rest, rfl, hx, hmt⟩
      · obtain ⟨a, c, t, heq, hc, ht⟩ := ih.mp hscan
        exact ⟨x :: a, c, t, by rw [heq, List.cons_append], hc, ht⟩
    · rintro ⟨a, c, t, heq, hc, ht⟩
      cases a with
      | nil =>
        rw [List.nil_append] at heq
        injection heq with h1 h2
        subst h1
        subst h2
        exact Or.inl ⟨hc, ht⟩
      | cons y a' =>
        rw [List.cons_append] at heq
        injection heq with h1 h2
        exact Or.inr (ih.mpr ⟨a', c, t, h2, hc, ht⟩)

theorem wsThenTilde8_iff {l : List Nat} : wsThenTilde8 l = true ↔
    ∃ a c t, l = a ++ c :: t ∧ a.all isWhitespace = true ∧
      isWhitespace c = true ∧ matchTilde8 t = true := by
  induction l with
  | nil => simp [wsThenTilde8]
  | cons x rest ih =>
    simp only [wsThenTilde8, Bool.and_eq_true, Bool.or_eq_true]
    constructor
    · rintro ⟨hx, hmt | hws⟩
      · exact ⟨[], x, rest, rfl, rfl, hx, hmt⟩
      · obtain ⟨a, c, t, heq, hall, hc, ht⟩ := ih.mp hws
        exact ⟨x :: a, c, t, by rw [heq, List.cons_append],
          by simp [List.all_cons, hx, hall], hc, ht⟩
    · rintro ⟨a, c, t, heq, hall, hc, ht⟩
      cases a with
      | nil =>
        rw [List.nil_append] at heq
        injection heq with h1 h2
        subst h1
        subst h2
        exact ⟨hc, Or.inl ht⟩
      | cons y a' =>
        rw [List.cons_append] at heq
        injection heq with h1 h2
        subst h1
        rw [List.all_cons, Bool.and_eq_true] at hall
        exact ⟨hall.1, Or.inr (ih.mpr ⟨a', c, t, h2, hall.2, hc, ht⟩)⟩

theorem has_invalid_iff_single {s : List Nat} :
    has_invalid_date_like_suffix s = true ↔
    ∃ a c t, s = a ++ c :: t ∧ isWhitespace c = true ∧
      matchTilde8 t = true := by
  induction s with
  | nil => simp [has_invalid_date_like_suffix]
  | cons x rest ih =>
    simp only [has_invalid_date_like_suffix, Bool.or_eq_true]
    constructor
    · rintro (hws | hrec)
      · obtain ⟨a, c, t, heq, -, hc, ht⟩ := wsThenTilde8_iff.mp hws
        exact ⟨a, c, t, heq, hc, ht⟩
      · obtain ⟨a, c, t, heq, hc, ht⟩ := ih.mp hrec
        exact ⟨x :: a, c, t, by rw [heq, List.cons_append], hc, ht⟩
    · rintro ⟨a, c, t, heq, hc, ht⟩
      cases a with
      | nil =>
        rw [List.nil_append] at heq
        injection heq with h1 h2
        subst h1
        subst h2
        exact Or.inl (by simp [wsThenTilde8, hc, ht])
      | cons y a' =>
        rw [List.cons_append] at heq
        injection heq with h1 h2
        exact Or.inr (ih.mpr ⟨a', c, t, h2, hc, ht⟩)

theorem scan_shape_index (P : Nat → Bool) (s : List Nat) :
    (∃ a c t, s = a ++ c :: t ∧ P c = true ∧ matchTilde8 t = true) ↔
    (10 ≤ s.length ∧ matchTilde8 (s.drop (s.length - 9)) = true ∧
      ∃ c, (s.take (s.length - 9)).getLast? = some c ∧ P c = true) := by
  constructor
  · rintro ⟨a, c, t, rfl, hP, ht⟩
    have ht9 : t.length = 9 := matchTilde8_length ht
    have hlen : (a ++ c :: t).length = a.length + 10 := by
      simp only [List.length_append, List.length_cons, ht9]
    have hd : a ++ c :: t = (a ++ [c]) ++ t := by simp
    have hk : (a ++ c :: t).length - 9 = (a ++ [c]).length := by
      simp only [List.length_append, List.length_cons, List.length_nil, ht9]
      omega
    refine ⟨by omega, ?_, c, ?_, hP⟩
    · rw [hk, hd, List.drop_left]
      exact ht
    · rw [hk, hd, List.take_left, List.getLast?_concat]
  · rintro ⟨h10, hmt, c, hlast, hP⟩
    have hsplit : s.take (s.length - 9) ++ s.drop (s.length - 9) = s :=
      List.take_append_drop _ _
    rcases List.eq_nil_or_concat (s.take (s.length - 9)) with hnil | ⟨u, b, hu⟩
    · rw [hnil] at hlast
      simp at hlast
    · rw [List.concat_eq_append] at hu
      rw [hu, List.getLast?_concat] at hlast
      obtain rfl : b = c := by injection hlast
      refine ⟨u, b, s.drop (s.length - 9), ?_, hP, hmt⟩
      have h2 : (u ++ [b]) ++ s.drop (s.length - 9) = s := by
        rw [← hu]
        exact hsplit
      simp only [List.append_assoc, List.singleton_append] at h2
      exact h2.symm

theorem matchTilde8_eq (t : List Nat) : matchTilde8 t = tildeDigits8 isNd t := by
  cases t <;> rfl

theorem utf8_head_slash (s : List Nat) :
    ((utf8Encode s).head? == some 0x2F) = (s.head? == some 0x2F) := by
  cases s with
  | nil => rfl
  | cons c rest =>
    have h : utf8Encode (c :: rest) = utf8EncodeChar c ++ utf8Encode rest := by
      simp [utf8Encode]
    rw [h]
    unfold utf8EncodeChar
    by_cases h1 : c < 0x80
    · rw [if_pos h1]
      simp
    · rw [if_neg h1]
      by_cases h2 : c < 0x800
      · rw [if_pos h2]
        have hL : 0xC0 + c / 64 ≠ 0x2F := by omega
        have hR : c ≠ 0x2F := by omega
        simp [hL, hR]
      · rw [if_neg h2]
        by_cases h3 : c < 0x10000
        · rw [if_pos h3]
          have hL : 0xE0 + c / 4096 ≠ 0x2F := by omega
          have hR : c ≠ 0x2F := by omega
          simp [hL, hR]
        · rw [if_neg h3]
          have hL : 0xF0 + c / 262144 ≠ 0x2F := by omega
          have hR : c ≠ 0x2F := by omega
          simp [hL, hR]

/-! ### Claim theorems -/

/-- C1 (counterexample): the matcher as the code implements it accepts
`~` followed by 8 Arabic-Indic digits (U+0660), because the regex class
`\d` is Unicode-aware, while the claim's shape with ASCII decimal digits
rejects that string; so the claimed equivalence fails there. -/
theorem c1_counterexample_nonascii_digits :
    has_date_like_suffix arabicDigitFacet = true ∧
    dateLikeSuffixSpecAscii arabicDigitFacet = false := by
  constructor
  · decide
  · decide

/-- C1 (amended): for every string `s`, `has_date_like_suffix s` is true
iff the last 9 characters of `s` are `~` followed by exactly 8 Unicode
decimal digits (category Nd, the digits matched by the regex class `\d`)
and the character immediately before that block, when one exists, is not
whitespace. -/
theorem c1_matcher_iff_shape (s : List Nat) :
    has_date_like_suffix s = true ↔ dateLikeSuffixSpecNd s = true := by
  rw [has_date_like_suffix, Bool.or_eq_true]
  constructor
  · rintro (h | h)
    · have hlen : s.length = 9 := matchTilde8_length h
      have h0 : s.length - 9 = 0 := by omega
      simp [dateLikeSuffixSpecNd, dateLikeSuffixShape, precededOk, h0,
        ← matchTilde8_eq, h, hlen]
    · obtain ⟨a, c, t, heq, hc, ht⟩ := dateLikeScan_iff.mp h
      obtain ⟨h10, hmt, c', hlast, hc'⟩ :=
        (scan_shape_index (fun x => !isWhitespace x) s).mp
          ⟨a, c, t, heq, by simp [hc], ht⟩
      simp only [dateLikeSuffixSpecNd, dateLikeSuffixShape, Bool.and_eq_true,
        decide_eq_true_eq]
      refine ⟨⟨by omega, ?_⟩, ?_⟩
      · rw [← matchTilde8_eq]
        exact hmt
      · simp [precededOk, hlast, hc']
  · intro h
    simp only [dateLikeSuffixSpecNd, dateLikeSuffixShape, Bool.and_eq_true,
      decide_eq_true_eq] at h
    obtain ⟨⟨h9, hmt⟩, hpre⟩ := h
    rw [← matchTilde8_eq] at hmt
    by_cases hlen : s.length ≤ 9
    · left
      have h0 : s.length - 9 = 0 := by omega
      rw [h0, List.drop_zero] at hmt
      exact hmt
    · right
      have h10 : 10 ≤ s.length := by omega
      have hkpos : 1 ≤ s.length - 9 := by omega
      have htl : (s.take (s.length - 9)).length = s.length - 9 := by
        rw [List.length_take]
        omega
      rcases List.eq_nil_or_concat (s.take (s.length - 9)) with hnil |
        ⟨u, b, hu⟩
      · rw [hnil] at htl
        simp at htl
        omega
      · rw [List.concat_eq_append] at hu
        have hlast : (s.take (s.length - 9)).getLast? = some b := by
          rw [hu, List.getLast?_concat]
        have hb : isWhitespace b = false := by
          have := hpre
          rw [precededOk, hlast] at this
          simpa using this
        obtain ⟨a, c, t, heq, hc, ht⟩ :=
          (scan_shape_index (fun x => !isWhitespace x) s).mpr
            ⟨h10, hmt, b, hlast, by simp [hb]⟩
        exact dateLikeScan_iff.mpr ⟨a, c, t, heq, by simpa using hc, ht⟩

/-- C6: `is_valid s` is false exactly when trimming `s` changes it or
`s` begins with `/`; in particular the empty string is valid. -/
theorem c6_is_valid_characterization :
    (∀ s : List Nat, is_valid s = false ↔
      (trim s ≠ s ∨ s.head? = some 0x2F)) ∧
    is_valid [] = true := by
  refine ⟨fun s => ?_, by decide⟩
  have hh := utf8_head_slash s
  constructor
  · intro h
    by_contra hcon
    push_neg at hcon
    obtain ⟨h1, h2⟩ := hcon
    simp only [is_valid, hh] at h
    rw [h1] at h
    simp [beq_iff_eq, h2] at h
  · intro h
    simp only [is_valid, hh]
    rcases h with h1 | h2
    · have hb : (trim s == s) = false := by
        simp [beq_iff_eq, h1]
      rw [hb, Bool.false_and]
    · have hb : (s.head? == some 0x2F) = true := by
        simp [beq_iff_eq, h2]
      rw [hb]
      simp

/-- C7: `has_invalid_date_like_suffix s` is true iff `s` ends with one
or more whitespace characters immediately followed by `~` and exactly 8
digits (the regex class `\d`, Unicode Nd) at the very end. -/
theorem c7_invalid_suffix_iff (s : List Nat) :
    has_invalid_date_like_suffix s = true ↔
    ∃ a w d, s = a ++ w ++ (0x7E :: d) ∧ w ≠ [] ∧
      w.all isWhitespace = true ∧ d.length = 8 ∧ d.all isNd = true := by
  rw [has_invalid_iff_single]
  constructor
  · rintro ⟨a, c, t, heq, hc, ht⟩
    obtain ⟨d, rfl, hd8, hdall⟩ := matchTilde8_iff.mp ht
    exact ⟨a, [c], d, by simpa using heq, by simp, by simp [hc], hd8, hdall⟩
  · rintro ⟨a, w, d, heq, hwne, hwall, hd8, hdall⟩
    rcases List.eq_nil_or_concat w with rfl | ⟨u, b, hu⟩
    · exact absurd rfl hwne
    · rw [List.concat_eq_append] at hu
      subst hu
      refine ⟨a ++ u, b, 0x7E :: d, ?_, ?_, ?_⟩
      · rw [heq]
        simp [List.append_assoc]
      · have := (List.all_eq_true.mp hwall) b (by simp)
        simpa using this
      · exact matchTilde8_iff.mpr ⟨d, rfl, hd8, hdall⟩

/-- C10: the date-like-suffix matcher and the invalid-suffix detector
are never both true on the same string: the former requires the
character before the trailing `~` + 8 digits to be absent or
non-whitespace, the latter requires it to be whitespace. -/
theorem c10_matchers_mutually_exclusive (s : List Nat) :
    (has_date_like_suffix s && has_invalid_date_like_suffix s) = false := by
  cases hd : has_date_like_suffix s with
  | false => simp
  | true =>
    cases hi : has_invalid_date_like_suffix s with
    | false => simp [hi]
    | true =>
      exfalso
      obtain ⟨a, c, t, heq, hc, ht⟩ := has_invalid_iff_single.mp hi
      obtain ⟨h10, hmt, c', hlast', hws'⟩ :=
        (scan_shape_index isWhitespace s).mp ⟨a, c, t, heq, hc, ht⟩
      rw [has_date_like_suffix, Bool.or_eq_true] at hd
      rcases hd with h | h
      · have : s.length = 9 := matchTilde8_length h
        omega
      · obtain ⟨a₂, c₂, t₂, heq₂, hc₂, ht₂⟩ := dateLikeScan_iff.mp h
        obtain ⟨-, -, c₃, hlast₃, hnws₃⟩ :=
          (scan_shape_index (fun x => !isWhitespace x) s).mp
            ⟨a₂, c₂, t₂, heq₂, by simp [hc₂], ht₂⟩
        rw [hlast'] at hlast₃
        obtain rfl : c' = c₃ := by injection hlast₃
        rw [hws'] at hnws₃
        simp at hnws₃

theorem try_split_like_of_ascii (p q : List Nat) (hq : q.length = 9)
    (hascii : q.all isAsciiChar = true) :
    try_split_into_prefix_and_date_like_suffix (p ++ q) =
      .ok (some (p, q)) := by
  have hbq : byteLen q = 9 := by rw [byteLen_ascii hascii, hq]
  have hbs : byteLen (p ++ q) = byteLen p + 9 := by rw [byteLen_append, hbq]
  simp only [try_split_into_prefix_and_date_like_suffix]
  rw [if_neg (by omega), (by omega : byteLen (p ++ q) - 9 = byteLen p),
    splitAtByteBoundary_byteLen]
  simp [hascii]

/-- C2: for every valid string of at least 9 characters whose trailing
9-character block is pure ASCII, the structural split succeeds and is
taken unconditionally at 9 characters from the end; in particular
`abc ~19700230` splits into `abc ` and date `none` even though the
matcher rejects that string. -/
theorem c2_split_unconditional :
    (∀ s : List Nat, is_valid s = true → 9 ≤ s.length →
      (s.drop (s.length - 9)).all isAsciiChar = true →
      try_split_into_prefix_and_date_like_suffix s =
        .ok (some (s.take (s.length - 9), s.drop (s.length - 9)))) ∧
    try_split_into_prefix_and_date_suffix facetSpaceFeb30 =
      .ok (some ([0x61, 0x62, 0x63, 0x20], none)) ∧
    has_date_like_suffix facetSpaceFeb30 = false := by
  refine ⟨fun s hv h9 ha => ?_, by rfl, by decide⟩
  have h := try_split_like_of_ascii (s.take (s.length - 9))
    (s.drop (s.length - 9)) (by rw [List.length_drop]; omega) ha
  rwa [List.take_append_drop] at h

theorem c2_witness :
    is_valid facetXDate = true ∧ 9 ≤ facetXDate.length ∧
    (facetXDate.drop (facetXDate.length - 9)).all isAsciiChar = true ∧
    try_split_into_prefix_and_date_like_suffix facetXDate =
      .ok (some ([0x78],
        [0x7E, 0x32, 0x30, 0x32, 0x32, 0x30, 0x36, 0x32, 0x35])) :=
  ⟨by decide, by decide, by decide, by
    have h := c2_split_unconditional.1 facetXDate (by decide) (by decide)
      (by decide)
    exact h.trans (by rfl)⟩

/-- C3: the date split fails (returns `ok none`) exactly when the
structural split does; when the structural split succeeds it returns the
prefix together with the parse result, which is `none` when the
9-character suffix is not a real calendar date and `some d` when it
parses. -/
theorem c3_date_split_plumbing :
    (∀ s : List Nat, try_split_into_prefix_and_date_suffix s = .ok none ↔
      try_split_into_prefix_and_date_like_suffix s = .ok none) ∧
    (∀ (s p suf : List Nat),
      try_split_into_prefix_and_date_like_suffix s = .ok (some (p, suf)) →
      parseDateSuffix suf = none →
      try_split_into_prefix_and_date_suffix s = .ok (some (p, none))) ∧
    (∀ (s p suf : List Nat) (d : Date),
      try_split_into_prefix_and_date_like_suffix s = .ok (some (p, suf)) →
      parseDateSuffix suf = some d →
      try_split_into_prefix_and_date_suffix s = .ok (some (p, some d))) := by
  refine ⟨fun s => ?_, fun s p suf h hp => ?_, fun s p suf d h hp => ?_⟩
  · cases h : try_split_into_prefix_and_date_like_suffix s with
    | error e => simp [try_split_into_prefix_and_date_suffix, h]
    | ok o =>
      cases o with
      | none => simp [try_split_into_prefix_and_date_suffix, h]
      | some pq =>
        obtain ⟨p, suf⟩ := pq
        simp [try_split_into_prefix_and_date_suffix, h]
  · simp [try_split_into_prefix_and_date_suffix, h, hp]
  · simp [try_split_into_prefix_and_date_suffix, h, hp]

theorem c3_witness :
    try_split_into_prefix_and_date_like_suffix facetZeros =
      .ok (some ([], facetZeros)) ∧
    parseDateSuffix facetZeros = none ∧
    try_split_into_prefix_and_date_suffix facetZeros =
      .ok (some ([], none)) :=
  ⟨by rfl, by rfl,
    c3_date_split_plumbing.2.1 facetZeros [] facetZeros (by rfl) (by rfl)⟩

/-- C4 (code bug): the split operations are not total.  The valid
4-character string `€€€a` is 10 UTF-8 bytes long, and byte index 1 is in
the middle of the first `€`, so the Rust slice `&facet[1..]` panics
instead of returning `None`; the embedded split surfaces this as
`.error ()`. -/
theorem c4_panic_on_multibyte_boundary :
    is_valid multibyteBoundaryFacet = true ∧
    multibyteBoundaryFacet.length = 4 ∧
    byteLen multibyteBoundaryFacet = 10 ∧
    try_split_into_prefix_and_date_like_suffix multibyteBoundaryFacet =
      .error () ∧
    try_split_into_prefix_and_date_suffix multibyteBoundaryFacet =
      .error () :=
  ⟨by decide, by decide, by rfl, by rfl, by rfl⟩

/-- C5: whenever the structural split of a valid string of length at
least 9 succeeds, the prefix and the suffix concatenate back to the
original string. -/
theorem c5_split_concat_roundtrip (s p suf : List Nat)
    (hv : is_valid s = true) (h9 : 9 ≤ s.length)
    (h : try_split_into_prefix_and_date_like_suffix s =
      .ok (some (p, suf))) :
    p ++ suf = s := by
  simp only [try_split_into_prefix_and_date_like_suffix] at h
  split at h
  · simp at h
  · split at h
    · simp at h
    · rename_i p' q' heq
      split at h
      · simp only [Except.ok.injEq, Option.some.injEq, Prod.mk.injEq] at h
        obtain ⟨rfl, rfl⟩ := h
        exact splitAtByteBoundary_append heq
      · simp at h

theorem c5_witness :
    is_valid facetXDate = true ∧ 9 ≤ facetXDate.length ∧
    [0x78] ++ [0x7E, 0x32, 0x30, 0x32, 0x32, 0x30, 0x36, 0x32, 0x35] =
      facetXDate :=
  ⟨by decide, by decide,
    c5_split_concat_roundtrip facetXDate [0x78]
      [0x7E, 0x32, 0x30, 0x32, 0x32, 0x30, 0x36, 0x32, 0x35]
      (by decide) (by decide) (by rfl)⟩

/-- C8: building a facet from the prefix `tag` and the date 2022-06-25
appends the formatted `~YYYYMMDD` suffix directly after the prefix with
no extra separator, and splitting the result recovers exactly the prefix
`tag` and the same date. -/
theorem c8_construction_roundtrip :
    from_prefix_with_date_suffix [0x74, 0x61, 0x67] ⟨2022, 6, 25⟩ =
      .ok facetTagDate ∧
    try_split_into_prefix_and_date_suffix facetTagDate =
      .ok (some ([0x74, 0x61, 0x67], some ⟨2022, 6, 25⟩)) :=
  ⟨by rfl, by rfl⟩

/-- C9: facet construction fails exactly when formatting the date suffix
fails; it succeeds for every date whose year is 4-digit representable
and returns the formatting failure for years outside that range (such as
negative years). -/
theorem c9_format_error_conditions :
    (∀ (p : List Nat) (d : Date),
      from_prefix_with_date_suffix p d = .error () ↔
      formatDateSuffix d = .error ()) ∧
    (∀ (p : List Nat) (d : Date), 0 ≤ d.year → d.year ≤ 9999 →
      ∃ s, from_prefix_with_date_suffix p d = .ok s) ∧
    (∀ (p : List Nat) (d : Date), d.year < 0 →
      from_prefix_with_date_suffix p d = .error ()) := by
  refine ⟨fun p d => ?_, fun p d h0 h1 => ?_, fun p d hneg => ?_⟩
  · cases hf : formatDateSuffix d with
    | error e =>
      cases e
      simp [from_prefix_with_date_suffix, hf]
    | ok suf => simp [from_prefix_with_date_suffix, hf]
  · unfold from_prefix_with_date_suffix formatDateSuffix
    rw [if_pos ⟨h0, h1⟩]
    exact ⟨_, rfl⟩
  · unfold from_prefix_with_date_suffix formatDateSuffix
    rw [if_neg (by omega : ¬(0 ≤ d.year ∧ d.year ≤ 9999))]

theorem c9_witness :
    (∃ s, from_prefix_with_date_suffix [] ⟨2022, 6, 25⟩ = .ok s) ∧
    from_prefix_with_date_suffix [] ⟨-1, 1, 1⟩ = .error () :=
  ⟨c9_format_error_conditions.2.1 [] ⟨2022, 6, 25⟩ (by decide) (by decide),
   c9_format_error_conditions.2.2 [] ⟨-1, 1, 1⟩ (by decide)⟩

end GigTags
